import Mathlib

/-!
ncursesw-rs: the `wrapper.h` umbrella headers

A verification development for the two binding-generation headers
`src/wrapper.h` and `src/assets/wrapper.h`.

Each header is a list of `#include` lines, the definition of the
function-like preprocessor definition `MARK_FIX_753` and twenty invocations of
it.  The preprocessor definition becomes a Lean function from its two
arguments to the C declaration it expands to; a header becomes the list of its
include lines and the list of its invocations; compiling the expanded
declarations against the wrapped library is a fallible function of the
library environment: it fails on an undefined initializer, on a declared name
the library already defines and on a name declared twice, and it converts the
initializer to the declared type.
-/

namespace NcurseswRs

/-! ## Data model -/

/-- One `#include` line: `quoted = false` for `#include <file>`,
`quoted = true` for `#include "dir/file"`; `dir` is the directory part of the
path (empty when the line names a bare file). -/
structure Include where
  quoted : Bool
  dir : String
  file : String
  deriving DecidableEq, Repr

/-- One line `MARK_FIX_753(req_name, type);` of a header: the two arguments as
written. -/
structure Invocation where
  req_name : String
  type : String
  deriving DecidableEq, Repr

/-- The C declaration `const type name = initializer;` (without `const` when
`constQualified = false`).  The initializer is a single identifier. -/
structure CDecl where
  constQualified : Bool
  type : String
  name : String
  initializer : String
  deriving DecidableEq, Repr

/-- A typed constant as the binding generator sees it: name, type, value, and
whether the declaration is `const`. -/
structure TypedConstant where
  name : String
  type : String
  value : Int
  constQualified : Bool
  deriving DecidableEq, Repr

/-- The wrapped library as seen by the initializers: the integer value of each
identifier it defines, `none` for an identifier it does not define. -/
abbrev LibEnv := String → Option Int

/-! ## `src/wrapper.h` -/

namespace Wrapper

/-- Lines 25-30 of `src/wrapper.h`. -/
def includes : List Include :=
  [ ⟨false, "", "ctype.h"⟩,
    ⟨false, "", "locale.h"⟩,
    ⟨false, "", "ncurses.h"⟩,
    ⟨false, "", "panel.h"⟩,
    ⟨false, "", "menu.h"⟩ ]

/-- Line 33 of `src/wrapper.h`:
`#define MARK_FIX_753(req_name, type) const type Fix753_##req_name = req_name;`
The token-pasting operator glues `Fix753_` to the argument as written; the
second occurrence of `req_name` is the initializer expression. -/
def MARK_FIX_753 (req_name type : String) : CDecl :=
  { constQualified := true
    type := type
    name := "Fix753_" ++ req_name
    initializer := req_name }

/-- Lines 35-54 of `src/wrapper.h`. -/
def invocations : List Invocation :=
  [ ⟨"A_NORMAL", "attr_t"⟩,
    ⟨"A_ATTRIBUTES", "attr_t"⟩,
    ⟨"A_CHARTEXT", "attr_t"⟩,
    ⟨"A_COLOR", "attr_t"⟩,
    ⟨"A_STANDOUT", "attr_t"⟩,
    ⟨"A_UNDERLINE", "attr_t"⟩,
    ⟨"A_REVERSE", "attr_t"⟩,
    ⟨"A_BLINK", "attr_t"⟩,
    ⟨"A_DIM", "attr_t"⟩,
    ⟨"A_BOLD", "attr_t"⟩,
    ⟨"A_ALTCHARSET", "attr_t"⟩,
    ⟨"A_INVIS", "attr_t"⟩,
    ⟨"A_PROTECT", "attr_t"⟩,
    ⟨"A_HORIZONTAL", "attr_t"⟩,
    ⟨"A_LEFT", "attr_t"⟩,
    ⟨"A_LOW", "attr_t"⟩,
    ⟨"A_RIGHT", "attr_t"⟩,
    ⟨"A_TOP", "attr_t"⟩,
    ⟨"A_VERTICAL", "attr_t"⟩,
    ⟨"A_ITALIC", "attr_t"⟩ ]

end Wrapper

/-! ## `src/assets/wrapper.h` -/

namespace Assets

/-- Lines 3-10 of `src/assets/wrapper.h`. -/
def includes : List Include :=
  [ ⟨false, "", "ctype.h"⟩,
    ⟨false, "", "locale.h"⟩,
    ⟨true, "%include%", "ncurses_dll.h"⟩,
    ⟨true, "%include%", "ncurses.h"⟩,
    ⟨true, "%include%", "panel.h"⟩,
    ⟨true, "%include%", "menu.h"⟩,
    ⟨true, "%include%", "form.h"⟩ ]

/-- Line 13 of `src/assets/wrapper.h`:
`#define MARK_FIX_753(req_name, type) const type Fix753_##req_name = req_name;` -/
def MARK_FIX_753 (req_name type : String) : CDecl :=
  { constQualified := true
    type := type
    name := "Fix753_" ++ req_name
    initializer := req_name }

/-- Lines 15-34 of `src/assets/wrapper.h`. -/
def invocations : List Invocation :=
  [ ⟨"A_NORMAL", "attr_t"⟩,
    ⟨"A_ATTRIBUTES", "attr_t"⟩,
    ⟨"A_CHARTEXT", "attr_t"⟩,
    ⟨"A_COLOR", "attr_t"⟩,
    ⟨"A_STANDOUT", "attr_t"⟩,
    ⟨"A_UNDERLINE", "attr_t"⟩,
    ⟨"A_REVERSE", "attr_t"⟩,
    ⟨"A_BLINK", "attr_t"⟩,
    ⟨"A_DIM", "attr_t"⟩,
    ⟨"A_BOLD", "attr_t"⟩,
    ⟨"A_ALTCHARSET", "attr_t"⟩,
    ⟨"A_INVIS", "attr_t"⟩,
    ⟨"A_PROTECT", "attr_t"⟩,
    ⟨"A_HORIZONTAL", "attr_t"⟩,
    ⟨"A_LEFT", "attr_t"⟩,
    ⟨"A_LOW", "attr_t"⟩,
    ⟨"A_RIGHT", "attr_t"⟩,
    ⟨"A_TOP", "attr_t"⟩,
    ⟨"A_VERTICAL", "attr_t"⟩,
    ⟨"A_ITALIC", "attr_t"⟩ ]

end Assets

/-! ## Preprocessing and compilation -/

/-- A header as far as the shim is concerned: its include lines, its definition
of `MARK_FIX_753` and the invocations, in source order. -/
structure Header where
  includes : List Include
  define : String → String → CDecl
  invocations : List Invocation

/-- The header `src/wrapper.h`. -/
def wrapperH : Header :=
  { includes := Wrapper.includes
    define := Wrapper.MARK_FIX_753
    invocations := Wrapper.invocations }

/-- The header `src/assets/wrapper.h`. -/
def assetsWrapperH : Header :=
  { includes := Assets.includes
    define := Assets.MARK_FIX_753
    invocations := Assets.invocations }

/-- Preprocessing: every invocation is replaced by the expansion of the
header's definition at its arguments, in source order. -/
def Header.expand (h : Header) : List CDecl :=
  h.invocations.map fun i => h.define i.req_name i.type

/-- Modelled from the spec: the attribute's underlying integer type `attr_t`,
which the wrapped library declares (`typedef unsigned chtype;` and
`typedef chtype attr_t;` in its `curses.h`) and this repository does not: an
unsigned type of 32 bits.  No other type name occurs in the headers, and none
is known here. -/
def typeBits (type : String) : Option Nat :=
  if type = "attr_t" then some 32 else none

/-- Compiling one declaration `const type name = initializer;` against the
library.  It is an error when the library already defines the declared name
(the name would be replaced or redeclared), when the type is not known, and
when the library does not define the initializer identifier.  Otherwise the
constant holds the library's value of the initializer converted to the
unsigned type, that is reduced modulo two to the width. -/
def compileDecl (env : LibEnv) (d : CDecl) : Option TypedConstant :=
  match env d.name, typeBits d.type, env d.initializer with
  | none, some w, some v =>
    some { name := d.name, type := d.type, value := v % 2 ^ w,
           constQualified := d.constQualified }
  | _, _, _ => none

/-- Compiling the declarations of a translation unit in order, `declared`
being the names the unit has declared so far: a name declared a second time is
an error, and so is any declaration that does not compile. -/
def compileFrom (env : LibEnv) (declared : List String) :
    List CDecl → Option (List TypedConstant)
  | [] => some []
  | d :: ds =>
    if d.name ∈ declared then none
    else
      match compileDecl env d, compileFrom env (d.name :: declared) ds with
      | some c, some cs => some (c :: cs)
      | _, _ => none

/-- Compiling a translation unit: every declaration must compile; one error
fails the whole unit. -/
def compile (env : LibEnv) (ds : List CDecl) : Option (List TypedConstant) :=
  compileFrom env [] ds

/-- Generation for a header: preprocess, then compile against the library. -/
def generate (env : LibEnv) (h : Header) : Option (List TypedConstant) :=
  compile env h.expand

/-- The names a header enumerates, in source order. -/
def Header.names (h : Header) : List String :=
  h.invocations.map Invocation.req_name

/-- The names of the constants a header declares, in source order. -/
def Header.constNames (h : Header) : List String :=
  h.expand.map CDecl.name

/-- The file names a header includes, in source order. -/
def Header.includedFiles (h : Header) : List String :=
  h.includes.map Include.file

/-! ## Sample libraries -/

/-- The constant either header declares for an invocation, given the library:
the pasted name, the given type, the library's value of the name reduced
modulo `2 ^ 32` (`0` stands in where the library has none; generation fails
there), `const`. -/
def constantOf (env : LibEnv) (i : Invocation) : TypedConstant :=
  { name := "Fix753_" ++ i.req_name, type := i.type,
    value := (env i.req_name).getD 0 % 2 ^ 32, constQualified := true }

/-! ## Lemmas on the definition and on compilation -/

/-- Both headers define `MARK_FIX_753` by the same replacement text. -/
theorem define_eq (h : Header) (hh : h = wrapperH ∨ h = assetsWrapperH) :
    h.define = Wrapper.MARK_FIX_753 := by
  rcases hh with rfl | rfl <;> rfl

/-- Both headers hold the same invocations. -/
theorem invocations_eq (h : Header) (hh : h = wrapperH ∨ h = assetsWrapperH) :
    h.invocations = Wrapper.invocations := by
  rcases hh with rfl | rfl
  · rfl
  · decide

/-- Pasting `Fix753_` in front of a name loses nothing of the name. -/
theorem paste_cancel (a b : String) (hab : "Fix753_" ++ a = "Fix753_" ++ b) : a = b := by
  have hd := congrArg String.data hab
  simp only [String.data_append] at hd
  exact String.ext (List.append_cancel_left hd)

/-- A pasted name is seven characters longer than the name it comes from. -/
theorem paste_length (a : String) : ("Fix753_" ++ a).length = 7 + a.length := by
  rw [String.length_append]
  rfl

/-- The expansion of either header, spelled out. -/
theorem expand_eq (h : Header) (hh : h = wrapperH ∨ h = assetsWrapperH) :
    h.expand = Wrapper.invocations.map
      (fun i => Wrapper.MARK_FIX_753 i.req_name i.type) := by
  unfold Header.expand
  rw [define_eq h hh, invocations_eq h hh]

/-- Every invocation of either header passes `attr_t`. -/
theorem type_eq (h : Header) (hh : h = wrapperH ∨ h = assetsWrapperH) :
    ∀ i ∈ h.invocations, i.type = "attr_t" := by
  rcases hh with rfl | rfl <;> decide

/-- When a unit compiles: no name was declared before, no name is declared
twice, and every declaration compiles to the constant at its position. -/
theorem compileFrom_eq_some (env : LibEnv) (declared : List String) (ds : List CDecl)
    (cs : List TypedConstant) :
    compileFrom env declared ds = some cs ↔
      (∀ d ∈ ds, d.name ∉ declared) ∧ (ds.map CDecl.name).Nodup ∧
        List.Forall₂ (fun d c => compileDecl env d = some c) ds cs := by
  induction ds generalizing declared cs with
  | nil =>
    constructor
    · intro hc
      have hc2 : some ([] : List TypedConstant) = some cs := hc
      cases hc2
      exact ⟨fun d hd => absurd hd (List.not_mem_nil d), List.nodup_nil, List.Forall₂.nil⟩
    · rintro ⟨_, _, hf⟩
      cases hf
      rfl
  | cons d ds ih =>
    have hstep : compileFrom env declared (d :: ds) =
        (if d.name ∈ declared then none
          else
            match compileDecl env d, compileFrom env (d.name :: declared) ds with
            | some c, some cs => some (c :: cs)
            | _, _ => none) := rfl
    rw [hstep]
    by_cases hmem : d.name ∈ declared
    · rw [if_pos hmem]
      constructor
      · intro hc
        cases hc
      · rintro ⟨hfresh, _, _⟩
        exact absurd hmem (hfresh d (List.mem_cons_self d ds))
    · rw [if_neg hmem]
      constructor
      · intro hc
        cases hd : compileDecl env d with
        | none =>
          rw [hd] at hc
          cases hc
        | some c =>
          cases hr : compileFrom env (d.name :: declared) ds with
          | none =>
            rw [hd, hr] at hc
            cases hc
          | some cs0 =>
            rw [hd, hr] at hc
            have hc2 : some (c :: cs0) = some cs := hc
            cases hc2
            obtain ⟨hfresh, hnd, hf⟩ := (ih _ _).1 hr
            refine ⟨?_, ?_, List.Forall₂.cons hd hf⟩
            · intro x hx
              rcases List.mem_cons.1 hx with rfl | hx
              · exact hmem
              · exact fun hin => hfresh x hx (List.mem_cons_of_mem _ hin)
            · rw [List.map_cons, List.nodup_cons]
              refine ⟨?_, hnd⟩
              intro hin
              obtain ⟨x, hx, hxd⟩ := List.mem_map.1 hin
              exact hfresh x hx (by rw [hxd]; exact List.mem_cons_self _ _)
      · rintro ⟨hfresh, hnd, hf⟩
        cases hf with
        | cons hd hf =>
          rename_i c cs0
          rw [List.map_cons, List.nodup_cons] at hnd
          have hr : compileFrom env (d.name :: declared) ds = some cs0 := by
            refine (ih _ _).2 ⟨?_, hnd.2, hf⟩
            intro x hx hin
            rcases List.mem_cons.1 hin with hxd | hin
            · exact hnd.1 (by rw [← hxd]; exact List.mem_map_of_mem _ hx)
            · exact hfresh x (List.mem_cons_of_mem _ hx) hin
          rw [hd, hr]

/-- When the declaration `MARK_FIX_753` expands to at type `attr_t` compiles:
the library defines the name, does not define the pasted name, and the
constant holds the library value reduced modulo `2 ^ 32`. -/
theorem compileDecl_expansion (env : LibEnv) (i : Invocation) (ht : i.type = "attr_t")
    (c : TypedConstant) :
    compileDecl env (Wrapper.MARK_FIX_753 i.req_name i.type) = some c ↔
      (env i.req_name).isSome = true ∧ env ("Fix753_" ++ i.req_name) = none ∧
        c = constantOf env i := by
  have hbits : typeBits i.type = some 32 := by rw [ht]; rfl
  unfold compileDecl constantOf
  simp only [Wrapper.MARK_FIX_753, hbits]
  cases hp : env ("Fix753_" ++ i.req_name) with
  | some p => simp
  | none =>
    cases hv : env i.req_name with
    | none => simp
    | some v => simp [eq_comm]

/-- The declarations of a list of `attr_t` invocations compile one by one
exactly to the constants `constantOf` gives, when the library defines every
name and no pasted name. -/
theorem forall₂_expansion (env : LibEnv) (l : List Invocation)
    (ht : ∀ i ∈ l, i.type = "attr_t") (cs : List TypedConstant) :
    List.Forall₂ (fun d c => compileDecl env d = some c)
        (l.map (fun i => Wrapper.MARK_FIX_753 i.req_name i.type)) cs ↔
      (∀ i ∈ l, (env i.req_name).isSome = true) ∧
        (∀ i ∈ l, env ("Fix753_" ++ i.req_name) = none) ∧
        cs = l.map (constantOf env) := by
  induction l generalizing cs with
  | nil =>
    constructor
    · intro hf
      cases hf
      exact ⟨fun i hi => absurd hi (List.not_mem_nil i),
        fun i hi => absurd hi (List.not_mem_nil i), rfl⟩
    · rintro ⟨_, _, rfl⟩
      exact List.Forall₂.nil
  | cons i l ih =>
    have hti := ht i (List.mem_cons_self i l)
    have htl : ∀ j ∈ l, j.type = "attr_t" := fun j hj => ht j (List.mem_cons_of_mem _ hj)
    constructor
    · intro hf
      rw [List.map_cons] at hf
      cases hf with
      | cons hd hf =>
        obtain ⟨h1, h2, rfl⟩ := (compileDecl_expansion env i hti _).1 hd
        obtain ⟨h3, h4, rfl⟩ := (ih htl _).1 hf
        refine ⟨?_, ?_, rfl⟩
        · intro j hj
          rcases List.mem_cons.1 hj with rfl | hj
          · exact h1
          · exact h3 j hj
        · intro j hj
          rcases List.mem_cons.1 hj with rfl | hj
          · exact h2
          · exact h4 j hj
    · rintro ⟨h1, h2, rfl⟩
      rw [List.map_cons, List.map_cons]
      refine List.Forall₂.cons ?_ ?_
      · exact (compileDecl_expansion env i hti _).2
          ⟨h1 i (List.mem_cons_self i l), h2 i (List.mem_cons_self i l), rfl⟩
      · exact (ih htl _).2
          ⟨fun j hj => h1 j (List.mem_cons_of_mem _ hj),
            fun j hj => h2 j (List.mem_cons_of_mem _ hj), rfl⟩

/-- What either header generates: it generates exactly when the library
defines every enumerated name and none of the pasted names, and then one
`const` constant per invocation, in source order, named by pasting and valued
by the library value reduced modulo `2 ^ 32`. -/
theorem generate_eq_some (env : LibEnv) (h : Header)
    (hh : h = wrapperH ∨ h = assetsWrapperH) (cs : List TypedConstant) :
    generate env h = some cs ↔
      (∀ n ∈ h.names, (env n).isSome = true) ∧
        (∀ n ∈ h.names, env ("Fix753_" ++ n) = none) ∧
        cs = h.invocations.map (constantOf env) := by
  have hnd : (h.expand.map CDecl.name).Nodup := by
    rcases hh with rfl | rfl <;> decide
  have ht := type_eq h hh
  unfold generate compile
  rw [compileFrom_eq_some]
  rw [invocations_eq h hh] at ht
  constructor
  · rintro ⟨_, _, hf⟩
    rw [expand_eq h hh] at hf
    obtain ⟨h1, h2, rfl⟩ := (forall₂_expansion env _ ht cs).1 hf
    unfold Header.names
    rw [invocations_eq h hh]
    refine ⟨?_, ?_, rfl⟩
    · intro n hn
      obtain ⟨i, hi, rfl⟩ := List.mem_map.1 hn
      exact h1 i hi
    · intro n hn
      obtain ⟨i, hi, rfl⟩ := List.mem_map.1 hn
      exact h2 i hi
  · rintro ⟨h1, h2, rfl⟩
    refine ⟨fun d _ hin => absurd hin (List.not_mem_nil _), hnd, ?_⟩
    rw [expand_eq h hh, invocations_eq h hh]
    unfold Header.names at h1 h2
    rw [invocations_eq h hh] at h1 h2
    exact (forall₂_expansion env _ ht _).2
      ⟨fun i hi => h1 _ (List.mem_map_of_mem _ hi),
        fun i hi => h2 _ (List.mem_map_of_mem _ hi), rfl⟩

/-- C2: in either header the enumerated names have no duplicate, the generated
constant names have no duplicate, there are as many of the one as of the
other, every enumerated name yields exactly one generated constant name, every
generated constant name comes from exactly one enumerated name, and a generated
list carries exactly those names. -/
theorem names_bijection (h : Header) (hh : h = wrapperH ∨ h = assetsWrapperH) :
    h.names.Nodup ∧
    h.constNames.Nodup ∧
    h.constNames.length = h.names.length ∧
    (∀ n ∈ h.names, h.constNames.count ("Fix753_" ++ n) = 1) ∧
    (∀ c ∈ h.constNames, ∃! n, n ∈ h.names ∧ c = "Fix753_" ++ n) ∧
    (∀ env cs, generate env h = some cs →
      cs.map TypedConstant.name = h.constNames ∧ cs.length = h.names.length) := by
  have hcn : h.constNames = h.names.map (fun n => "Fix753_" ++ n) := by
    unfold Header.constNames Header.names
    rw [expand_eq h hh, invocations_eq h hh, List.map_map, List.map_map]
    rfl
  refine ⟨?_, ?_, ?_, ?_, ?_, ?_⟩
  · rcases hh with rfl | rfl <;> decide
  · rcases hh with rfl | rfl <;> decide
  · rw [hcn, List.length_map]
  · rcases hh with rfl | rfl <;> decide
  · intro c hc
    rw [hcn] at hc
    obtain ⟨n, hn, rfl⟩ := List.mem_map.1 hc
    refine ⟨n, ⟨hn, rfl⟩, ?_⟩
    rintro m ⟨_, hm⟩
    exact (paste_cancel _ _ hm).symm
  · intro env cs hgen
    obtain ⟨_, _, rfl⟩ := (generate_eq_some env h hh cs).1 hgen
    refine ⟨?_, ?_⟩
    · rw [hcn]
      unfold Header.names
      rw [List.map_map, List.map_map]
      rfl
    · unfold Header.names
      rw [List.length_map, List.length_map]

/-- Witness of C2 at `src/assets/wrapper.h`. -/
theorem names_bijection_witness :
    (assetsWrapperH = wrapperH ∨ assetsWrapperH = assetsWrapperH) ∧
    assetsWrapperH.names.Nodup ∧
    assetsWrapperH.constNames.Nodup ∧
    assetsWrapperH.constNames.length = assetsWrapperH.names.length ∧
    (∀ n ∈ assetsWrapperH.names, assetsWrapperH.constNames.count ("Fix753_" ++ n) = 1) ∧
    (∀ c ∈ assetsWrapperH.constNames, ∃! n, n ∈ assetsWrapperH.names ∧ c = "Fix753_" ++ n) ∧
    (∀ env cs, generate env assetsWrapperH = some cs →
      cs.map TypedConstant.name = assetsWrapperH.constNames ∧
        cs.length = assetsWrapperH.names.length) :=
  ⟨Or.inr rfl, names_bijection assetsWrapperH (Or.inr rfl)⟩

/-- C4: in either header the constant generated for an enumerated name is named
`Fix753_` followed by that name; this name differs from the name itself and
from every enumerated name, no enumerated name begins with `Fix753_`, and the
derivation of names is injective. -/
theorem generated_name_derivation (h : Header) (hh : h = wrapperH ∨ h = assetsWrapperH) :
    (∀ n t, (h.define n t).name = "Fix753_" ++ n) ∧
    (∀ i ∈ h.invocations, (h.define i.req_name i.type).name ≠ i.req_name) ∧
    (∀ i ∈ h.invocations, (h.define i.req_name i.type).name ∉ h.names) ∧
    (∀ n ∈ h.names, ¬ ("Fix753_".data <+: n.data)) ∧
    (∀ c ∈ h.constNames, c ∉ h.names) ∧
    (∀ a b t u, (h.define a t).name = (h.define b u).name → a = b) := by
  rw [define_eq h hh]
  refine ⟨fun _ _ => rfl, ?_, ?_, ?_, ?_, ?_⟩
  · intro i _ heq
    have hlen := congrArg String.length heq
    have hp := paste_length i.req_name
    have hname : (Wrapper.MARK_FIX_753 i.req_name i.type).name = "Fix753_" ++ i.req_name := rfl
    rw [hname] at hlen
    omega
  · rcases hh with rfl | rfl <;> decide
  · rcases hh with rfl | rfl <;> decide
  · rcases hh with rfl | rfl <;> decide
  · intro a b t u heq
    exact paste_cancel a b heq

/-- Witness of C4 at `src/wrapper.h`. -/
theorem generated_name_derivation_witness :
    (wrapperH = wrapperH ∨ wrapperH = assetsWrapperH) ∧
    (∀ n t, (wrapperH.define n t).name = "Fix753_" ++ n) ∧
    (∀ i ∈ wrapperH.invocations, (wrapperH.define i.req_name i.type).name ≠ i.req_name) ∧
    (∀ i ∈ wrapperH.invocations, (wrapperH.define i.req_name i.type).name ∉ wrapperH.names) ∧
    (∀ n ∈ wrapperH.names, ¬ ("Fix753_".data <+: n.data)) ∧
    (∀ c ∈ wrapperH.constNames, c ∉ wrapperH.names) ∧
    (∀ a b t u, (wrapperH.define a t).name = (wrapperH.define b u).name → a = b) :=
  ⟨Or.inl rfl, generated_name_derivation wrapperH (Or.inl rfl)⟩

/-- C5: `src/assets/wrapper.h` includes the ncurses, panel, menu and form
headers, while `src/wrapper.h` includes the ncurses, panel and menu headers
and no form header. -/
theorem form_header_only_in_assets :
    (∀ f ∈ ["ncurses.h", "panel.h", "menu.h", "form.h"], f ∈ assetsWrapperH.includedFiles) ∧
    (∀ f ∈ ["ncurses.h", "panel.h", "menu.h"], f ∈ wrapperH.includedFiles) ∧
    "form.h" ∉ wrapperH.includedFiles ∧
    wrapperH.includedFiles = ["ctype.h", "locale.h", "ncurses.h", "panel.h", "menu.h"] := by
  decide

/-- C6: the two headers hold the same invocations in the same order and the
same definition of `MARK_FIX_753`, so they expand to the same declarations and,
for every library, generate the same list of constants or both fail. -/
theorem shims_equivalent :
    wrapperH.invocations = assetsWrapperH.invocations ∧
    wrapperH.define = assetsWrapperH.define ∧
    wrapperH.expand = assetsWrapperH.expand ∧
    ∀ env, generate env wrapperH = generate env assetsWrapperH := by
  have hinv : wrapperH.invocations = assetsWrapperH.invocations := by decide
  have hdefn : wrapperH.define = assetsWrapperH.define := rfl
  have hexp : wrapperH.expand = assetsWrapperH.expand := by
    unfold Header.expand
    rw [hinv, hdefn]
  refine ⟨hinv, hdefn, hexp, ?_⟩
  intro env
  unfold generate
  rw [hexp]

/-- C7: in either header every invocation passes `attr_t` as the type, the
expansion is `const`-qualified and carries the type it was given, and every
generated constant is a `const` of type `attr_t`. -/
theorem constants_are_const_attr_t (h : Header) (hh : h = wrapperH ∨ h = assetsWrapperH) :
    (∀ i ∈ h.invocations, i.type = "attr_t") ∧
    (∀ n t, (h.define n t).constQualified = true ∧ (h.define n t).type = t) ∧
    (∀ d ∈ h.expand, d.constQualified = true ∧ d.type = "attr_t") ∧
    (∀ env cs, generate env h = some cs →
      ∀ c ∈ cs, c.constQualified = true ∧ c.type = "attr_t") := by
  have htype : ∀ i ∈ h.invocations, i.type = "attr_t" := by
    rcases hh with rfl | rfl <;> decide
  refine ⟨htype, ?_, ?_, ?_⟩
  · rw [define_eq h hh]
    exact fun _ _ => ⟨rfl, rfl⟩
  · intro d hd
    unfold Header.expand at hd
    rw [define_eq h hh] at hd
    obtain ⟨i, hi, rfl⟩ := List.mem_map.1 hd
    exact ⟨rfl, htype i hi⟩
  · intro env cs hgen c hc
    obtain ⟨_, _, rfl⟩ := (generate_eq_some env h hh cs).1 hgen
    obtain ⟨i, hi, rfl⟩ := List.mem_map.1 hc
    exact ⟨rfl, htype i hi⟩

/-- Witness of C7 at `src/assets/wrapper.h`. -/
theorem constants_are_const_attr_t_witness :
    (assetsWrapperH = wrapperH ∨ assetsWrapperH = assetsWrapperH) ∧
    (∀ i ∈ assetsWrapperH.invocations, i.type = "attr_t") ∧
    (∀ n t, (assetsWrapperH.define n t).constQualified = true ∧
      (assetsWrapperH.define n t).type = t) ∧
    (∀ d ∈ assetsWrapperH.expand, d.constQualified = true ∧ d.type = "attr_t") ∧
    (∀ env cs, generate env assetsWrapperH = some cs →
      ∀ c ∈ cs, c.constQualified = true ∧ c.type = "attr_t") :=
  ⟨Or.inr rfl, constants_are_const_attr_t assetsWrapperH (Or.inr rfl)⟩

end NcurseswRs
